import Mathlib

/-!
Verification of the cadence-codegen analysis pipeline (package `analyzer`).

The Go source is shallowly embedded: each Go function of the analyzer is
translated to a computable Lean definition operating on the same data.
Go maps that are written by key assignment are modelled as association
lists with first-key-wins lookup and in-place-replace insert, so that
assignment order and overwrite semantics match the Go `map` operations
actually performed by the code.  Go strings are modelled as Lean
`String`; Go byte slices of file contents as the UTF-8 bytes of the
string.  The Go standard-library string helpers used by the analyzer
(`strings.Split`, `strings.Fields`, `strings.TrimSpace`, `strings.Title`,
etc.) are reimplemented here with their documented behaviour on ASCII
text, which is the domain the analyzer operates on.

The external cadence parser (`parser.ParseProgram`) is a collaborator:
its output, a list of top-level declarations, is embedded as the
inductive `Declaration`, and `AnalyzeFile` is parameterised by a parse
oracle.  Filesystem and network effects (directory walking, contract
fetching) are likewise represented by passing the walked file list and
the fetched contract source as explicit inputs.
-/

/-! ### Go standard-library string helpers (ASCII behaviour) -/

/-- Whitespace class used by `strings.Fields` / `strings.TrimSpace` (ASCII part). -/
def isGoSpace (c : Char) : Bool :=
  c = ' ' || c = '\t' || c = '\n' || c = '\x0b' || c = '\x0c' || c = '\r'

/-- Split a character list at every occurrence of characters satisfying `p`,
keeping empty chunks (the splitting core of `strings.Split`/`FieldsFunc`). -/
def splitPredList (p : Char → Bool) : List Char → List (List Char)
  | [] => [[]]
  | c :: rest =>
    match splitPredList p rest with
    | [] => [[]]
    | h :: t => if p c then [] :: h :: t else (c :: h) :: t

/-- Go `strings.Split(s, sep)` for a single-character separator. -/
def goSplitChar (sep : Char) (s : String) : List String :=
  (splitPredList (fun c => c = sep) s.toList).map List.asString

/-- Go `strings.Join(elems, sep)`. -/
def goJoin (sep : String) : List String → String
  | [] => ""
  | [x] => x
  | x :: xs => x ++ sep ++ goJoin sep xs

/-- Go `strings.FieldsFunc(s, f)`: split on `f`, dropping empty chunks. -/
def goFieldsFunc (p : Char → Bool) (s : String) : List String :=
  ((splitPredList p s.toList).filter (fun chunk => !chunk.isEmpty)).map List.asString

/-- Go `strings.Fields(s)`: split around runs of whitespace. -/
def goFields (s : String) : List String :=
  goFieldsFunc isGoSpace s

/-- Go `strings.TrimSpace(s)`. -/
def trimSpace (s : String) : String :=
  (((s.toList.dropWhile isGoSpace).reverse.dropWhile isGoSpace).reverse).asString

/-- Go `strings.HasPrefix(s, pre)`. -/
def startsWithStr (s pre : String) : Bool :=
  pre.toList.isPrefixOf s.toList

/-- Go `strings.HasSuffix(s, suf)`. -/
def endsWithStr (s suf : String) : Bool :=
  suf.toList.isSuffixOf s.toList

/-- Go `strings.TrimSuffix(s, suf)`: drop `suf` when present, else unchanged. -/
def trimSuffixStr (s suf : String) : String :=
  if endsWithStr s suf then (s.toList.take (s.toList.length - suf.toList.length)).asString
  else s

/-- Substring occurrence test on character lists. -/
def containsList (sub : List Char) : List Char → Bool
  | [] => sub.isEmpty
  | c :: rest => sub.isPrefixOf (c :: rest) || containsList sub rest

/-- Go `strings.Contains(s, substr)`. -/
def containsStr (s sub : String) : Bool :=
  containsList sub.toList s.toList

/-- Go `strings.Count(s, string(c))` for a single character. -/
def countChar (s : String) (c : Char) : Nat :=
  s.toList.count c

/-- Go `strings.ToLower` (ASCII). -/
def toLowerStr (s : String) : String :=
  (s.toList.map Char.toLower).asString

/-- Separator classification used by Go `strings.Title` word detection:
ASCII alphanumerics and underscore are not separators, every other ASCII
character is; beyond ASCII only whitespace is treated as a separator. -/
def goIsSeparator (c : Char) : Bool :=
  if c.toNat ≤ 0x7F then
    !(('0' ≤ c && c ≤ '9') || ('a' ≤ c && c ≤ 'z') || ('A' ≤ c && c ≤ 'Z') || c = '_')
  else
    c.isWhitespace

/-- Character stream of Go `strings.Title`: map each rune to title case
when the previous rune is a separator. -/
def goTitleAux : Char → List Char → List Char
  | _, [] => []
  | prev, c :: cs =>
    (if goIsSeparator prev then c.toUpper else c) :: goTitleAux c cs

/-- Go `strings.Title(s)` (ASCII title case = upper case). -/
def goTitle (s : String) : String :=
  (goTitleAux ' ' s.toList).asString

/-! ### Bytes and base64 (Go `encoding/base64` StdEncoding) -/

/-- UTF-8 encoding of one character, as Go produces when converting a
string to a byte slice. -/
def utf8Bytes (c : Char) : List Nat :=
  let v := c.toNat
  if v < 0x80 then [v]
  else if v < 0x800 then [0xC0 + v / 64, 0x80 + v % 64]
  else if v < 0x10000 then [0xE0 + v / 4096, 0x80 + v / 64 % 64, 0x80 + v % 64]
  else [0xF0 + v / 0x40000, 0x80 + v / 4096 % 64, 0x80 + v / 64 % 64, 0x80 + v % 64]

/-- Byte content of a Go string / file content. -/
def bytesOfString (s : String) : List Nat :=
  (s.toList.map utf8Bytes).flatten

/-- Standard base64 alphabet. -/
def b64Char (n : Nat) : Char :=
  "ABCDEFGHIJKLMNOPQRSTUVWXYZabcdefghijklmnopqrstuvwxyz0123456789+/".toList.getD n '='

/-- Character stream of Go `base64.StdEncoding.EncodeToString`. -/
def encB64 : List Nat → List Char
  | [] => []
  | [b0] => [b64Char (b0 / 4), b64Char (b0 % 4 * 16), '=', '=']
  | [b0, b1] => [b64Char (b0 / 4), b64Char (b0 % 4 * 16 + b1 / 16), b64Char (b1 % 16 * 4), '=']
  | b0 :: b1 :: b2 :: rest =>
    b64Char (b0 / 4) :: b64Char (b0 % 4 * 16 + b1 / 16) ::
    b64Char (b1 % 16 * 4 + b2 / 64) :: b64Char (b2 % 64) :: encB64 rest

/-- Go `base64.StdEncoding.EncodeToString`. -/
def encodeBase64 (bs : List Nat) : String :=
  (encB64 bs).asString

/-! ### Go map model: association list, first-binding lookup,
in-place-replacing insert (mirrors `m[k]` read and `m[k] = v` write). -/

/-- Read `m[k]` of a Go map modelled as an association list. -/
def mapLookup {α : Type} (m : List (String × α)) (k : String) : Option α :=
  match m with
  | [] => none
  | (k', v) :: rest => if k' = k then some v else mapLookup rest k

/-- Write `m[k] = v` of a Go map: replace the binding if present, else append. -/
def mapInsert {α : Type} (m : List (String × α)) (k : String) (v : α) : List (String × α) :=
  match m with
  | [] => [(k, v)]
  | (k', v') :: rest => if k' = k then (k, v) :: rest else (k', v') :: mapInsert rest k v

namespace analyzer

/-! ### Data model (analyzer.go types).  The Go struct field `Type` is
rendered here as `Type'` because `Type` is a Lean keyword. -/

/-- Go `analyzer.Parameter`. -/
structure Parameter where
  Name : String
  TypeStr : String
  Optional : Bool
deriving DecidableEq, Repr

/-- Go `analyzer.Import`. -/
structure Import where
  Contract : String
  Address : String
deriving DecidableEq, Repr

/-- Go `analyzer.Field`. -/
structure Field where
  Name : String
  TypeStr : String
  Optional : Bool
  Access : String
deriving DecidableEq, Repr

/-- Go `analyzer.Struct`. -/
structure Struct where
  Name : String
  Fields : List Field
  Access : String
  FileName : String
deriving DecidableEq, Repr

/-- Go `analyzer.AnalysisResult`.  The Go fields `ReturnType`, `Base64`
and `Tag` are `omitempty` strings: the empty string denotes an absent
field. -/
structure AnalysisResult where
  FileName : String
  Type' : String
  Parameters : List Parameter
  ReturnType : String
  Imports : List Import
  Base64 : String
  Tag : String
deriving DecidableEq, Repr

/-- Address book loaded from `addresses.json`
(`map<network, map<symbolicName, address>>`). -/
abbrev AddressBook := List (String × List (String × String))

/-- Go `analyzer.Report`. -/
structure Report where
  Transactions : List (String × AnalysisResult)
  Scripts : List (String × AnalysisResult)
  Structs : List (String × Struct)
  Addresses : Option AddressBook
  IncludeBase64 : Bool
deriving DecidableEq, Repr

/-- Go `analyzer.Analyzer`. -/
structure Analyzer where
  Transactions : List (String × AnalysisResult)
  Scripts : List (String × AnalysisResult)
  Structs : List (String × Struct)
  IncludeBase64 : Bool
  AddressesPath : String
deriving DecidableEq, Repr

/-- Go `analyzer.New()`. -/
def Analyzer.new : Analyzer :=
  { Transactions := [], Scripts := [], Structs := [], IncludeBase64 := false, AddressesPath := "" }

/-- Go `(*Analyzer).SetIncludeBase64`. -/
def SetIncludeBase64 (a : Analyzer) (include' : Bool) : Analyzer :=
  { a with IncludeBase64 := include' }

/-! ### The external cadence parser's output (collaborator interface).
Only the AST shapes the analyzer reads are embedded: top-level
declarations, parameter lists, type annotations, composite members. -/

/-- Cadence type expression as rendered by the ast `String()` methods. -/
inductive CadType where
  | named (n : String)
  | optional (t : CadType)
  | variableArray (t : CadType)
deriving DecidableEq, Repr

/-- Rendering of `ast.Type.String()`. -/
def CadType.render : CadType → String
  | .named n => n
  | .optional t => t.render ++ "?"
  | .variableArray t => "[" ++ t.render ++ "]"

/-- Cadence `ast.TypeAnnotation`: resource marker plus type;
`String()` prefixes `@` for resources. -/
structure TypeAnn where
  IsResource : Bool
  Ty : CadType
deriving DecidableEq, Repr

/-- Rendering of `ast.TypeAnnotation.String()`. -/
def TypeAnn.render (t : TypeAnn) : String :=
  (if t.IsResource then "@" else "") ++ t.Ty.render

/-- Whether the annotation's type node is `*ast.OptionalType`. -/
def TypeAnn.isOptionalType (t : TypeAnn) : Bool :=
  match t.Ty with
  | .optional _ => true
  | _ => false

/-- Cadence `ast.Parameter` (identifier and type annotation). -/
structure CadParam where
  name : String
  typeAnn : TypeAnn
deriving DecidableEq, Repr

/-- Cadence `ast.Access`; the analyzer only distinguishes
`AccessNotSpecified` and renders the modifier with `String()`. -/
inductive CadAccess where
  | notSpecified
  | accessAll
  | accessSelf
  | accessContract
  | accessAccount
deriving DecidableEq, Repr

/-- Rendering of `ast.Access.String()`. -/
def CadAccess.render : CadAccess → String
  | .notSpecified => ""
  | .accessAll => "access(all)"
  | .accessSelf => "access(self)"
  | .accessContract => "access(contract)"
  | .accessAccount => "access(account)"

/-- Cadence `common.CompositeKind`. -/
inductive CompositeKind where
  | structureKind
  | resourceKind
  | contractKind
  | eventKind
  | enumKind
deriving DecidableEq, Repr

/-- Member declaration inside a composite; the analyzer only reads
`*ast.FieldDeclaration` members. -/
inductive Member where
  | fieldDecl (access : CadAccess) (name : String) (typeAnn : TypeAnn)
  | otherMember
deriving DecidableEq, Repr

/-- Top-level cadence declaration as consumed by `AnalyzeFile`. -/
inductive Declaration where
  | transaction (parameterList : Option (List CadParam))
  | function (access : CadAccess) (name : String)
      (parameterList : Option (List CadParam)) (returnTypeAnn : Option TypeAnn)
  | composite (access : CadAccess) (kind : CompositeKind) (name : String)
      (members : List Member)
  | otherDecl
deriving DecidableEq, Repr

/-! ### GetReport and the flattener (analyzer.go lines 93-170) -/

/-- Go `flattenStructName`: delete the dots of a dotted name. -/
def flattenStructName (name : String) : String :=
  if containsStr name "." then goJoin "" (goSplitChar '.' name)
  else name

/-- Go `flattenReturnType`: flatten the base name inside array and
optional syntax (defined in the source; not called by `GetReport`). -/
def flattenReturnType (returnType : String) : String :=
  if startsWithStr returnType "[" && endsWithStr returnType "]" then
    let innerType := trimSuffixStr returnType "]"
    let innerType := if startsWithStr innerType "[" then (innerType.toList.drop 1).asString else innerType
    let hasOptional := endsWithStr innerType "?"
    let innerType := if hasOptional then trimSuffixStr innerType "?" else innerType
    let flattenedInner := flattenStructName innerType
    let result := "[" ++ flattenedInner ++ "]"
    if hasOptional then result ++ "?" else result
  else if endsWithStr returnType "?" then
    flattenStructName (trimSuffixStr returnType "?") ++ "?"
  else
    flattenStructName returnType

/-- Struct-map flattening loop of `GetReport`: rebuild the map with
dot-free keys and names (iteration in binding order). -/
def flattenStructsMap (m : List (String × Struct)) : List (String × Struct) :=
  m.foldl
    (fun acc kv =>
      mapInsert acc (flattenStructName kv.1) { kv.2 with Name := flattenStructName kv.2.Name })
    []

/-- Go `(*Analyzer).GetReport`.  Loading `addresses.json` is filesystem
interaction; the decoded address book (or `none` when no file parsed)
is passed in explicitly. -/
def GetReport (a : Analyzer) (addresses : Option AddressBook) : Report :=
  { Transactions := a.Transactions
    Scripts := a.Scripts
    Structs := flattenStructsMap a.Structs
    Addresses := addresses
    IncludeBase64 := a.IncludeBase64 }

/-! ### Import splitter (analyzer.go lines 172-194) -/

/-- Loop body of `extractImports` over the split lines, returning both
the Import records and the kept (non-import) lines in order. -/
def extractImportsAux : List String → List Import × List String
  | [] => ([], [])
  | line :: rest =>
    let r := extractImportsAux rest
    let trimmed := trimSpace line
    if startsWithStr trimmed "import " then
      match goFields trimmed with
      | _ :: name :: "from" :: addr :: _ => ({ Contract := name, Address := addr } :: r.1, r.2)
      | _ => r
    else (r.1, line :: r.2)

/-- Go `extractImports`: split off `import X from Y` header lines. -/
def extractImports (content : String) : List Import × String :=
  let r := extractImportsAux (goSplitChar '\n' content)
  (r.1, goJoin "\n" r.2)

/-! ### Tag derivation (analyzer.go lines 206-261) -/

/-- Word separators of tag derivation (underscore/hyphen). -/
def isWordSep (c : Char) : Bool :=
  c = '_' || c = '-'

/-- Tag computation of `AnalyzeFile` from the file's directory path:
the Go code builds the `tag` string variable (empty when absent). -/
def deriveTagRaw (dir : String) : String :=
  if dir = "." then ""
  else
    let parts := goSplitChar '/' dir
    let validParts := parts.filter (fun p => p ≠ "" && p ≠ ".")
    let camel := validParts.enum.map (fun ip =>
      let subParts := goFieldsFunc isWordSep ip.2
      goJoin "" (subParts.enum.map (fun js =>
        if ip.1 = 0 ∧ js.1 = 0 then toLowerStr js.2 else goTitle (toLowerStr js.2))))
    let tag := goJoin "" camel
    if tag = "" then "" else goTitle tag

/-- Derived tag as stored in the result: `result.Tag` is only set when
the computed tag is nonempty, and the field is `omitempty`, so `none`
models the absent tag. -/
def deriveTag (dir : String) : Option String :=
  let t := deriveTagRaw dir
  if t = "" then none else some t

/-! ### Local struct extraction and entry-point classification
(analyzer.go lines 196-373) -/

/-- Field list of one composite declaration (loop over
`structDecl.Members.Declarations()`). -/
def memberFields (members : List Member) : List Field :=
  members.foldl
    (fun fields m =>
      match m with
      | .fieldDecl access name typeAnn =>
        fields ++ [{ Name := name
                     TypeStr := typeAnn.render
                     Optional := typeAnn.isOptionalType
                     Access := access.render }]
      | .otherMember => fields)
    []

/-- Struct-declaration loop of `AnalyzeFile` (lines 268-300): every
top-level composite of structure kind overwrites `a.Structs[name]`. -/
def extractLocalStructs (fileName : String) (structs : List (String × Struct))
    (ds : List Declaration) : List (String × Struct) :=
  ds.foldl
    (fun m d =>
      match d with
      | .composite access kind name members =>
        if kind = .structureKind then
          mapInsert m name
            { Name := name
              Fields := memberFields members
              Access := access.render
              FileName := fileName }
        else m
      | _ => m)
    structs

/-- Parameter records built from a possibly-nil parameter list; the Go
code hardcodes `Optional: false` in all three classification branches. -/
def mkParams (pl : Option (List CadParam)) : List Parameter :=
  (pl.getD []).map (fun p => { Name := p.name, TypeStr := p.typeAnn.render, Optional := false })

/-- Rendering of the optional return type annotation
(`function.ReturnTypeAnnotation.Type.String()`, or absent). -/
def renderRet (rt : Option TypeAnn) : String :=
  match rt with
  | none => ""
  | some t => t.Ty.render

/-- First `*ast.TransactionDeclaration` of the program (loop at lines 302-320). -/
def findTransaction : List Declaration → Option (Option (List CadParam))
  | [] => none
  | .transaction pl :: _ => some pl
  | _ :: rest => findTransaction rest

/-- First function declaration named exactly `main` (loop at lines 322-345). -/
def findMainFn : List Declaration → Option (CadAccess × Option (List CadParam) × Option TypeAnn)
  | [] => none
  | .function access name pl rt :: rest =>
    if name = "main" then some (access, pl, rt) else findMainFn rest
  | _ :: rest => findMainFn rest

/-- First function declaration with a non-default access modifier
(loop at lines 347-370). -/
def findAccessFn : List Declaration → Option (CadAccess × String × Option (List CadParam) × Option TypeAnn)
  | [] => none
  | .function access name pl rt :: rest =>
    if access ≠ .notSpecified then some (access, name, pl, rt) else findAccessFn rest
  | _ :: rest => findAccessFn rest

/-- Post-parse body of `AnalyzeFile` (lines 252-372): build the base
result, record local structs, then classify by the three priority
passes.  Returns the analysis outcome together with the analyzer (whose
`Structs` map has already been mutated even when classification fails). -/
def analyzeParsedProgram (a : Analyzer) (fileName tag : String) (imports : List Import)
    (b64 : String) (ds : List Declaration) : Except String AnalysisResult × Analyzer :=
  let a := { a with Structs := extractLocalStructs fileName a.Structs ds }
  let base : AnalysisResult :=
    { FileName := fileName, Type' := "", Parameters := [], ReturnType := ""
      Imports := imports, Base64 := b64, Tag := tag }
  match findTransaction ds with
  | some pl =>
    let r := { base with Type' := "transaction", Parameters := mkParams pl }
    (.ok r, { a with Transactions := mapInsert a.Transactions fileName r })
  | none =>
    match findMainFn ds with
    | some (_, pl, rt) =>
      let r := { base with Type' := "script", Parameters := mkParams pl, ReturnType := renderRet rt }
      (.ok r, { a with Scripts := mapInsert a.Scripts fileName r })
    | none =>
      match findAccessFn ds with
      | some (_, _, pl, rt) =>
        let r := { base with Type' := "script", Parameters := mkParams pl, ReturnType := renderRet rt }
        (.ok r, { a with Scripts := mapInsert a.Scripts fileName r })
      | none => (.error "no transaction or script found in file", a)

/-- Go `(*Analyzer).AnalyzeFile`.  File reading is external, so the
file's content arrives as input (a read failure is a failed `parse` of
nothing reaching the pipeline; both leave the analyzer untouched);
`fileName` and `dir` stand for `filepath.Base(filePath)` and
`filepath.Dir(filePath)`; `parse` is the external cadence parser applied
to the import-stripped body. -/
def AnalyzeFile (parse : String → Except String (List Declaration)) (a : Analyzer)
    (fileName dir content : String) : Except String AnalysisResult × Analyzer :=
  let r := extractImports content
  let imports := r.1
  let codeWithoutImports := r.2
  let tag := (deriveTag dir).getD ""
  match parse codeWithoutImports with
  | .error e => (.error ("failed to parse file: " ++ e), a)
  | .ok ds =>
    let b64 := if a.IncludeBase64 then encodeBase64 (bytesOfString content) else ""
    analyzeParsedProgram a fileName tag imports b64 ds

/-- One `.cdc` file visited by the directory walk. -/
structure FileInput where
  fileName : String
  dir : String
  content : String
deriving DecidableEq, Repr

/-- Go `(*Analyzer).AnalyzeDirectory` over the `.cdc` files the walk
visits, in walk order: per-file failures are logged as warnings and the
walk continues with the analyzer state the failed call left behind. -/
def AnalyzeDirectory (parse : String → Except String (List Declaration)) (a : Analyzer)
    (files : List FileInput) : Analyzer :=
  files.foldl (fun st f => (AnalyzeFile parse st f.fileName f.dir f.content).2) a

/-! ### Selective structural scanner
(analyzer.go `analyzeContractCodeSelective`, lines 735-815) -/

/-- Scanner state carried across lines: the struct map, the current
struct key, the inside-a-struct flag and the running brace count. -/
structure ScanState where
  structs : List (String × Struct)
  currentStructName : String
  inStruct : Bool
  braceCount : Int
deriving DecidableEq, Repr

/-- Field extraction loop (lines 783-785): first token `let` followed by
at least two more tokens yields the name and type tokens. -/
def findLetField : List String → Option (String × String)
  | "let" :: n :: t :: _ => some (trimSuffixStr n ":", trimSuffixStr t ";")
  | _ :: rest => findLetField rest
  | [] => none

/-- Struct-definition-start block of the scanner loop (lines 748-772):
a trimmed line starting with the struct keyword sequence, naming a
wanted struct not yet in the map, opens a new struct entry. -/
def scanStructStart (contractName : String) (structNames : List String)
    (st : ScanState) (line : String) : ScanState :=
  if startsWithStr line "access(all) struct" then
    match goFields line with
    | _ :: _ :: structName :: _ =>
      if structNames.contains structName then
        let fullStructName := contractName ++ "." ++ structName
        match mapLookup st.structs fullStructName with
        | some _ => st
        | none =>
          { structs := mapInsert st.structs fullStructName
              { Name := fullStructName, Fields := [], Access := "", FileName := "" }
            currentStructName := fullStructName
            inStruct := true
            braceCount := 0 }
      else st
    | _ => st
  else st

/-- Field-definition check of the scanner loop (lines 780-804): a line
containing the `let` keyword and a colon appends one field to the
current struct's entry when that entry exists. -/
def scanFieldUpdate (structs : List (String × Struct)) (currentStructName line : String) :
    List (String × Struct) :=
  if containsStr line "let" ∧ containsStr line ":" then
    match findLetField (goFields line) with
    | some nt =>
      match mapLookup structs currentStructName with
      | some sd =>
        mapInsert structs currentStructName
          { sd with Fields := sd.Fields ++
              [{ Name := nt.1, TypeStr := nt.2
                 Optional := containsStr nt.2 "?", Access := "" }] }
      | none => structs
    | none => structs
  else structs

/-- Inside-a-struct block of the scanner loop (lines 774-811): count
braces, capture one-line `let` field declarations, close the struct
when the running count returns to zero or below. -/
def scanStructBody (st : ScanState) (line : String) : ScanState :=
  if st.inStruct ∧ st.currentStructName ≠ "" then
    let bc := st.braceCount + (countChar line '{' : Int) - (countChar line '}' : Int)
    let structs2 := scanFieldUpdate st.structs st.currentStructName line
    if bc ≤ 0 then { structs := structs2, currentStructName := "", inStruct := false, braceCount := bc }
    else { st with structs := structs2, braceCount := bc }
  else st

/-- One iteration of the scanner loop: trim the line, run the
struct-start block, then the inside-struct block on the updated state. -/
def scanLine (contractName : String) (structNames : List String)
    (st : ScanState) (rawLine : String) : ScanState :=
  let line := trimSpace rawLine
  scanStructBody (scanStructStart contractName structNames st line) line

/-- Go `(*Analyzer).analyzeContractCodeSelective`, acting on the struct
map: scan the fetched contract source line by line and extract only the
wanted structure definitions. -/
def analyzeContractCodeSelective (structs : List (String × Struct)) (code contractName : String)
    (structNames : List String) : List (String × Struct) :=
  ((goSplitChar '\n' code).foldl (scanLine contractName structNames)
    { structs := structs, currentStructName := "", inStruct := false, braceCount := 0 }).structs

/-! ### Specification-side definitions (written from the claims' words,
for refinement statements and counterexamples) -/

/-- Claim C7's description of one import line: trimmed text beginning
with the import keyword and of shape `import <Name> from <Address>`,
name and address taken positionally; malformed lines yield nothing. -/
def parseImportLineSpec (line : String) : Option Import :=
  let trimmed := trimSpace line
  if startsWithStr trimmed "import " then
    match goFields trimmed with
    | _ :: name :: "from" :: addr :: _ => some { Contract := name, Address := addr }
    | _ => none
  else none

/-- Title-casing of exactly the first character of a string (claim C9's
reading of the final title-casing step). -/
def titleFirstChar (s : String) : String :=
  match s.toList with
  | [] => ""
  | c :: cs => (c.toUpper :: cs).asString

/-- Words of the first path segment: first word lowercased, the rest
lowercased then title-cased with `titler`. -/
def tagFirstSegWords (titler : String → String) (ws : List String) : List String :=
  match ws with
  | [] => []
  | w :: rest => toLowerStr w :: rest.map (fun x => titler (toLowerStr x))

/-- Claim C9's tag-derivation algorithm, parameterised by the
title-casing operation applied to non-first words and to the final
result: split the directory path into segments dropping empty and
current-directory parts, split each segment on underscore/hyphen,
lowercase every word, title-case all but the very first word of the
very first segment, concatenate with no separators, title-case the
result; no segments or an empty concatenation yield an absent tag. -/
def deriveTagSpecWith (titler : String → String) (dir : String) : Option String :=
  let segs := (goSplitChar '/' dir).filter (fun p => p ≠ "" && p ≠ ".")
  match segs with
  | [] => none
  | s :: rest =>
    let tag := goJoin "" (tagFirstSegWords titler (goFieldsFunc isWordSep s)) ++
      goJoin "" (rest.map (fun p =>
        goJoin "" ((goFieldsFunc isWordSep p).map (fun x => titler (toLowerStr x)))))
    if tag = "" then none else some (titler tag)

/-- Tag derivation exactly as claim C9 words it: title-casing a word or
the final result touches only its very first character. -/
def deriveTagClaimSpec (dir : String) : Option String :=
  deriveTagSpecWith titleFirstChar dir

/-- Tag derivation with the title-casing the code actually performs
(Go `strings.Title`: the first letter of every separator-delimited word
is capitalized, not only the very first character). -/
def deriveTagAmendedSpec (dir : String) : Option String :=
  deriveTagSpecWith goTitle dir

/-- Test for a transaction declaration (claim C6). -/
def isTransactionB : Declaration → Bool
  | .transaction _ => true
  | _ => false

/-- Test for a top-level function named exactly `main` (claim C6). -/
def isMainB : Declaration → Bool
  | .function _ name _ _ => name = "main"
  | _ => false

/-- Test for a top-level function with a non-default access modifier
(claim C6). -/
def isAccessFnB : Declaration → Bool
  | .function access _ _ _ => access ≠ CadAccess.notSpecified
  | _ => false

/-- Key the scanner's struct-start block would open for a (trimmed)
line: the contract-qualified name when the line starts a wanted struct. -/
def startKeyOfLine (contractName : String) (structNames : List String)
    (line : String) : Option String :=
  if startsWithStr line "access(all) struct" then
    match goFields line with
    | _ :: _ :: structName :: _ =>
      if structNames.contains structName then some (contractName ++ "." ++ structName)
      else none
    | _ => none
  else none

/-- Key the scanner's struct-start block would open for a raw line. -/
def wantedStartKey (contractName : String) (structNames : List String)
    (rawLine : String) : Option String :=
  startKeyOfLine contractName structNames (trimSpace rawLine)

/-! ### Lemmas about the Go map model -/

theorem mapLookup_insert_self {α : Type} (m : List (String × α)) (k : String) (v : α) :
    mapLookup (mapInsert m k v) k = some v := by
  induction m with
  | nil => simp [mapInsert, mapLookup]
  | cons kv rest ih =>
    obtain ⟨k', v'⟩ := kv
    by_cases h : k' = k
    · simp [mapInsert, mapLookup, h]
    · simp [mapInsert, mapLookup, h, ih]

theorem mapLookup_insert_ne {α : Type} (m : List (String × α)) (k k' : String) (v : α)
    (h : k ≠ k') : mapLookup (mapInsert m k v) k' = mapLookup m k' := by
  induction m with
  | nil => simp [mapInsert, mapLookup, h]
  | cons kv rest ih =>
    obtain ⟨k0, v0⟩ := kv
    by_cases h0 : k0 = k
    · subst h0
      simp [mapInsert, mapLookup, h]
    · simp only [mapInsert, if_neg h0, mapLookup]
      by_cases h1 : k0 = k'
      · simp [h1]
      · simp [h1, ih]

theorem mapLookup_insert_isSome {α : Type} (m : List (String × α)) (k k' : String) (v : α) :
    (mapLookup (mapInsert m k v) k').isSome = true ↔
      k' = k ∨ (mapLookup m k').isSome = true := by
  by_cases h : k' = k
  · subst h
    simp [mapLookup_insert_self]
  · rw [mapLookup_insert_ne m k k' v (fun e => h e.symm)]
    simp [h]
/-! ### Lemmas about the selective structural scanner -/

theorem scanStructStart_eq (cn : String) (ws : List String) (st : ScanState) (line : String) :
    scanStructStart cn ws st line =
      match startKeyOfLine cn ws line with
      | none => st
      | some k =>
        match mapLookup st.structs k with
        | some _ => st
        | none =>
          { structs := mapInsert st.structs k { Name := k, Fields := [], Access := "", FileName := "" }
            currentStructName := k
            inStruct := true
            braceCount := 0 } := by
  unfold scanStructStart startKeyOfLine
  by_cases h : startsWithStr line "access(all) struct"
  · simp only [h, if_true]
    rcases goFields line with _ | ⟨a, _ | ⟨b, _ | ⟨c, rest⟩⟩⟩
    · rfl
    · rfl
    · rfl
    · by_cases hc : c ∈ ws
      · rcases hl : mapLookup st.structs (cn ++ "." ++ c) with _ | sd <;> simp [hl, hc]
      · simp [hc]
  · simp [h]

theorem scanFieldUpdate_cases (structs : List (String × Struct)) (cur line : String) :
    scanFieldUpdate structs cur line = structs ∨
    ∃ sd fields, mapLookup structs cur = some sd ∧
      scanFieldUpdate structs cur line = mapInsert structs cur { sd with Fields := fields } := by
  unfold scanFieldUpdate
  by_cases hlet : containsStr line "let" = true ∧ containsStr line ":" = true
  · simp only [hlet, and_self, if_true]
    rcases findLetField (goFields line) with _ | nt
    · exact Or.inl rfl
    · rcases hl : mapLookup structs cur with _ | sd
      · simp [hl]
      · right
        exact ⟨sd, _, rfl, rfl⟩
  · simp [hlet]

theorem scanStructBody_idle (st : ScanState) (line : String) (h : st.inStruct = false) :
    scanStructBody st line = st := by
  simp [scanStructBody, h]

theorem scanStructBody_structs (st : ScanState) (line : String) :
    (scanStructBody st line).structs = st.structs ∨
    ∃ sd fields, mapLookup st.structs st.currentStructName = some sd ∧
      (scanStructBody st line).structs =
        mapInsert st.structs st.currentStructName { sd with Fields := fields } := by
  unfold scanStructBody
  split
  · rcases scanFieldUpdate_cases st.structs st.currentStructName line with h1 | ⟨sd, fields, hsd, heq⟩
    · left
      dsimp only
      split <;> exact h1
    · right
      refine ⟨sd, fields, hsd, ?_⟩
      dsimp only
      split <;> exact heq
  · exact Or.inl rfl

theorem scanStructStart_mono (cn : String) (ws : List String) (st : ScanState) (line k : String)
    (h : (mapLookup st.structs k).isSome = true) :
    (mapLookup (scanStructStart cn ws st line).structs k).isSome = true := by
  rw [scanStructStart_eq]
  rcases hsk : startKeyOfLine cn ws line with _ | k0
  · exact h
  · dsimp only
    rcases hl : mapLookup st.structs k0 with _ | sd
    · exact (mapLookup_insert_isSome st.structs k0 k _).mpr (Or.inr h)
    · exact h

theorem scanStructStart_key (cn : String) (ws : List String) (st : ScanState) (line k : String)
    (h : startKeyOfLine cn ws line = some k) :
    (mapLookup (scanStructStart cn ws st line).structs k).isSome = true := by
  rw [scanStructStart_eq, h]
  dsimp only
  rcases hl : mapLookup st.structs k with _ | sd
  · exact (mapLookup_insert_isSome st.structs k k _).mpr (Or.inl rfl)
  · simp [hl]

theorem scanStructStart_newkeys (cn : String) (ws : List String) (st : ScanState) (line k : String)
    (h : (mapLookup (scanStructStart cn ws st line).structs k).isSome = true) :
    (mapLookup st.structs k).isSome = true ∨ startKeyOfLine cn ws line = some k := by
  rw [scanStructStart_eq] at h
  rcases hsk : startKeyOfLine cn ws line with _ | k0
  · rw [hsk] at h
    exact Or.inl h
  · rw [hsk] at h
    dsimp only at h
    rcases hl : mapLookup st.structs k0 with _ | sd
    · rw [hl] at h
      dsimp only at h
      rcases (mapLookup_insert_isSome st.structs k0 k _).mp h with he | hold
      · subst he
        exact Or.inr rfl
      · exact Or.inl hold
    · rw [hl] at h
      exact Or.inl h

theorem scanStructBody_mono (st : ScanState) (line k : String)
    (h : (mapLookup st.structs k).isSome = true) :
    (mapLookup (scanStructBody st line).structs k).isSome = true := by
  rcases scanStructBody_structs st line with h1 | ⟨sd, fields, hsd, heq⟩
  · rw [h1]
    exact h
  · rw [heq]
    exact (mapLookup_insert_isSome st.structs st.currentStructName k _).mpr (Or.inr h)

theorem scanStructBody_bound (st : ScanState) (line k : String)
    (h : (mapLookup (scanStructBody st line).structs k).isSome = true) :
    (mapLookup st.structs k).isSome = true := by
  rcases scanStructBody_structs st line with h1 | ⟨sd, fields, hsd, heq⟩
  · rw [h1] at h
    exact h
  · rw [heq] at h
    rcases (mapLookup_insert_isSome st.structs st.currentStructName k _).mp h with he | hold
    · rw [he, hsd]
      rfl
    · exact hold

theorem scanLine_mono (cn : String) (ws : List String) (st : ScanState) (raw k : String)
    (h : (mapLookup st.structs k).isSome = true) :
    (mapLookup (scanLine cn ws st raw).structs k).isSome = true :=
  scanStructBody_mono _ _ _ (scanStructStart_mono cn ws st (trimSpace raw) k h)

theorem scanLine_key (cn : String) (ws : List String) (st : ScanState) (raw k : String)
    (h : wantedStartKey cn ws raw = some k) :
    (mapLookup (scanLine cn ws st raw).structs k).isSome = true :=
  scanStructBody_mono _ _ _ (scanStructStart_key cn ws st (trimSpace raw) k h)

theorem scanLine_newkeys (cn : String) (ws : List String) (st : ScanState) (raw k : String)
    (h : (mapLookup (scanLine cn ws st raw).structs k).isSome = true) :
    (mapLookup st.structs k).isSome = true ∨ wantedStartKey cn ws raw = some k :=
  scanStructStart_newkeys cn ws st (trimSpace raw) k (scanStructBody_bound _ _ _ h)

theorem scanLine_idle (cn : String) (ws : List String) (st : ScanState) (raw : String)
    (h1 : st.inStruct = false)
    (h2 : ∀ k, wantedStartKey cn ws raw = some k → (mapLookup st.structs k).isSome = true) :
    scanLine cn ws st raw = st := by
  have hstart : scanStructStart cn ws st (trimSpace raw) = st := by
    rw [scanStructStart_eq]
    rcases hsk : startKeyOfLine cn ws (trimSpace raw) with _ | k0
    · rfl
    · have hks := h2 k0 hsk
      dsimp only
      rcases hl : mapLookup st.structs k0 with _ | sd
      · rw [hl] at hks
        simp at hks
      · rfl
  show scanStructBody (scanStructStart cn ws st (trimSpace raw)) (trimSpace raw) = st
  rw [hstart]
  exact scanStructBody_idle st (trimSpace raw) h1

theorem scanFold_mono (cn : String) (ws : List String) :
    ∀ (lines : List String) (st : ScanState) (k : String),
      (mapLookup st.structs k).isSome = true →
      (mapLookup ((lines.foldl (scanLine cn ws) st)).structs k).isSome = true := by
  intro lines
  induction lines with
  | nil => exact fun st k h => h
  | cons l rest ih => exact fun st k h => ih _ _ (scanLine_mono cn ws st l k h)

theorem scanFold_keys (cn : String) (ws : List String) :
    ∀ (lines : List String) (st : ScanState) (l k : String),
      l ∈ lines → wantedStartKey cn ws l = some k →
      (mapLookup ((lines.foldl (scanLine cn ws) st)).structs k).isSome = true := by
  intro lines
  induction lines with
  | nil => intro st l k hmem; exact absurd hmem (List.not_mem_nil l)
  | cons l0 rest ih =>
    intro st l k hmem hkey
    rcases List.mem_cons.mp hmem with he | hm
    · subst he
      exact scanFold_mono cn ws rest _ k (scanLine_key cn ws st l k hkey)
    · exact ih _ l k hm hkey

theorem scanFold_idle (cn : String) (ws : List String) :
    ∀ (lines : List String) (st : ScanState),
      st.inStruct = false →
      (∀ l ∈ lines, ∀ k, wantedStartKey cn ws l = some k →
        (mapLookup st.structs k).isSome = true) →
      lines.foldl (scanLine cn ws) st = st := by
  intro lines
  induction lines with
  | nil => intro st _ _; rfl
  | cons l0 rest ih =>
    intro st h1 h2
    have hstep : scanLine cn ws st l0 = st :=
      scanLine_idle cn ws st l0 h1 (h2 l0 (List.mem_cons_self l0 rest))
    show List.foldl (scanLine cn ws) (scanLine cn ws st l0) rest = st
    rw [hstep]
    exact ih st h1 (fun l hl => h2 l (List.mem_cons_of_mem l0 hl))

theorem scanFold_newkeys (cn : String) (ws : List String) :
    ∀ (lines : List String) (st : ScanState) (k : String),
      (mapLookup ((lines.foldl (scanLine cn ws) st)).structs k).isSome = true →
      (mapLookup st.structs k).isSome = true ∨
        ∃ l ∈ lines, wantedStartKey cn ws l = some k := by
  intro lines
  induction lines with
  | nil => intro st k h; exact Or.inl h
  | cons l0 rest ih =>
    intro st k h
    rcases ih (scanLine cn ws st l0) k h with h1 | ⟨l, hl, hkey⟩
    · rcases scanLine_newkeys cn ws st l0 k h1 with h2 | h2
      · exact Or.inl h2
      · exact Or.inr ⟨l0, List.mem_cons_self l0 rest, h2⟩
    · exact Or.inr ⟨l, List.mem_cons_of_mem l0 hl, hkey⟩

theorem wantedStartKey_shape (cn : String) (ws : List String) (raw k : String)
    (h : wantedStartKey cn ws raw = some k) : ∃ s ∈ ws, k = cn ++ "." ++ s := by
  unfold wantedStartKey startKeyOfLine at h
  by_cases hp : startsWithStr (trimSpace raw) "access(all) struct" = true
  · simp only [hp, if_true] at h
    rcases hgf : goFields (trimSpace raw) with _ | ⟨a, _ | ⟨b, _ | ⟨c, rest⟩⟩⟩ <;> rw [hgf] at h
    · exact Option.noConfusion h
    · exact Option.noConfusion h
    · exact Option.noConfusion h
    · dsimp only at h
      by_cases hc : c ∈ ws
      · have hc' : ws.contains c = true := by simpa using hc
        rw [if_pos hc'] at h
        injection h with h'
        exact ⟨c, hc, h'.symm⟩
      · simp [hc] at h
  · simp [hp] at h

/-- Claim C4: nested-type resolution is idempotent — running the
selective scan of the same remote contract source a second time, with
the same contract name and wanted-name set, leaves the structure map
exactly as the first run produced it: every struct-start line's key
already exists, so the existence check skips it and no field list is
appended to again. -/
theorem claimC4 (S : List (String × Struct)) (code cn : String) (ws : List String) :
    analyzeContractCodeSelective (analyzeContractCodeSelective S code cn ws) code cn ws =
      analyzeContractCodeSelective S code cn ws := by
  unfold analyzeContractCodeSelective
  have h2 : (goSplitChar '\n' code).foldl (scanLine cn ws)
      { structs := ((goSplitChar '\n' code).foldl (scanLine cn ws)
          { structs := S, currentStructName := "", inStruct := false, braceCount := 0 }).structs,
        currentStructName := "", inStruct := false, braceCount := 0 } =
      { structs := ((goSplitChar '\n' code).foldl (scanLine cn ws)
          { structs := S, currentStructName := "", inStruct := false, braceCount := 0 }).structs,
        currentStructName := "", inStruct := false, braceCount := 0 } :=
    scanFold_idle cn ws _ _ rfl (fun l hl k hk => scanFold_keys cn ws _ _ l k hl hk)
  rw [h2]

/-- Claim C5: the selective scanner is selective — scanning a remote
contract source for a wanted-name set only ever adds structure-map keys
of the form `contractName.structName` with `structName` in the wanted
set; every other key present afterwards was present before. -/
theorem claimC5 (S : List (String × Struct)) (code cn : String) (ws : List String) (k : String)
    (h : (mapLookup (analyzeContractCodeSelective S code cn ws) k).isSome = true) :
    (mapLookup S k).isSome = true ∨ ∃ s ∈ ws, k = cn ++ "." ++ s := by
  unfold analyzeContractCodeSelective at h
  rcases scanFold_newkeys cn ws _ _ _ h with h1 | ⟨l, _, hkey⟩
  · exact Or.inl h1
  · exact Or.inr (wantedStartKey_shape cn ws l k hkey)

/-- Witness for claim C5 at a concrete two-struct contract source
wanting only `Foo`: the wanted key is added, and every key of the
result is either old or contract-qualified wanted. -/
theorem claimC5_witness :
    ((mapLookup (analyzeContractCodeSelective []
        "access(all) struct Foo \x7b\n  access(all) let x: UInt64\n\x7d\naccess(all) struct Bar \x7b\n  access(all) let z: Int\n\x7d"
        "C" ["Foo"]) "C.Foo").isSome = true) ∧
    ((mapLookup ([] : List (String × Struct)) "C.Foo").isSome = true ∨
      ∃ s ∈ ["Foo"], "C.Foo" = "C" ++ "." ++ s) := by
  constructor
  · decide
  · exact claimC5 ([] : List (String × Struct)) "access(all) struct Foo \x7b\n  access(all) let x: UInt64\n\x7d\naccess(all) struct Bar \x7b\n  access(all) let z: Int\n\x7d" "C" ["Foo"] "C.Foo" (by decide)

/-! ### Case analysis of the classification pipeline -/

theorem mkParams_optional (pl : Option (List CadParam)) :
    ∀ p ∈ mkParams pl, p.Optional = false := by
  intro p hp
  unfold mkParams at hp
  rcases List.mem_map.mp hp with ⟨q, _, he⟩
  subst he
  rfl

theorem analyzeParsedProgram_cases (a : Analyzer) (fn tag : String) (imports : List Import)
    (b64 : String) (ds : List Declaration) (r : AnalysisResult) (a' : Analyzer)
    (h : analyzeParsedProgram a fn tag imports b64 ds = (Except.ok r, a')) :
    (∃ pl, findTransaction ds = some pl ∧
      r = { FileName := fn, Type' := "transaction", Parameters := mkParams pl, ReturnType := "",
            Imports := imports, Base64 := b64, Tag := tag } ∧
      a' = { a with Structs := extractLocalStructs fn a.Structs ds,
                    Transactions := mapInsert a.Transactions fn r }) ∨
    (∃ pl rt,
      r = { FileName := fn, Type' := "script", Parameters := mkParams pl,
            ReturnType := renderRet rt, Imports := imports, Base64 := b64, Tag := tag } ∧
      a' = { a with Structs := extractLocalStructs fn a.Structs ds,
                    Scripts := mapInsert a.Scripts fn r }) := by
  unfold analyzeParsedProgram at h
  dsimp only at h
  rcases hft : findTransaction ds with _ | pl
  all_goals rw [hft] at h; dsimp only at h
  case some =>
    rw [Prod.mk.injEq] at h
    obtain ⟨h1, h2⟩ := h
    rw [Except.ok.injEq] at h1
    subst h1
    exact Or.inl ⟨pl, rfl, rfl, h2.symm⟩
  case none =>
    rcases hfm : findMainFn ds with _ | ⟨acc, pl, rt⟩
    all_goals rw [hfm] at h; dsimp only at h
    case some =>
      rw [Prod.mk.injEq] at h
      obtain ⟨h1, h2⟩ := h
      rw [Except.ok.injEq] at h1
      subst h1
      exact Or.inr ⟨pl, rt, rfl, h2.symm⟩
    case none =>
      rcases hfa : findAccessFn ds with _ | ⟨acc, nm, pl, rt⟩
      all_goals rw [hfa] at h; dsimp only at h
      case some =>
        rw [Prod.mk.injEq] at h
        obtain ⟨h1, h2⟩ := h
        rw [Except.ok.injEq] at h1
        subst h1
        exact Or.inr ⟨pl, rt, rfl, h2.symm⟩
      case none =>
        rw [Prod.mk.injEq] at h
        exact absurd h.1 (by simp)

theorem analyzeParsedProgram_error_state (a : Analyzer) (fn tag : String) (imports : List Import)
    (b64 : String) (ds : List Declaration) (e : String) (a' : Analyzer)
    (h : analyzeParsedProgram a fn tag imports b64 ds = (Except.error e, a')) :
    a' = { a with Structs := extractLocalStructs fn a.Structs ds } := by
  unfold analyzeParsedProgram at h
  dsimp only at h
  rcases hft : findTransaction ds with _ | pl
  all_goals rw [hft] at h; dsimp only at h
  case some =>
    rw [Prod.mk.injEq] at h
    exact absurd h.1 (by simp)
  case none =>
    rcases hfm : findMainFn ds with _ | ⟨acc, pl, rt⟩
    all_goals rw [hfm] at h; dsimp only at h
    case some =>
      rw [Prod.mk.injEq] at h
      exact absurd h.1 (by simp)
    case none =>
      rcases hfa : findAccessFn ds with _ | ⟨acc, nm, pl, rt⟩
      all_goals rw [hfa] at h; dsimp only at h
      case some =>
        rw [Prod.mk.injEq] at h
        exact absurd h.1 (by simp)
      case none =>
        rw [Prod.mk.injEq] at h
        exact h.2.symm

theorem AnalyzeFile_ok_elim (parse : String → Except String (List Declaration)) (a : Analyzer)
    (fn dir content : String) (r : AnalysisResult) (a' : Analyzer)
    (h : AnalyzeFile parse a fn dir content = (Except.ok r, a')) :
    ∃ ds, parse (extractImports content).2 = Except.ok ds ∧
      analyzeParsedProgram a fn ((deriveTag dir).getD "") (extractImports content).1
        (if a.IncludeBase64 then encodeBase64 (bytesOfString content) else "") ds =
        (Except.ok r, a') := by
  unfold AnalyzeFile at h
  dsimp only at h
  rcases hp : parse (extractImports content).2 with e | ds
  all_goals rw [hp] at h; dsimp only at h
  case error =>
    rw [Prod.mk.injEq] at h
    exact absurd h.1 (by simp)
  case ok =>
    exact ⟨ds, rfl, h⟩

/-! ### Claim C1 -/

/-- Claim C1 as stated is false: the analyzer hardcodes `Optional: false`
for every transaction/script parameter.  At a transaction whose single
parameter is declared with the syntactically optional type `Int?`, the
resulting Parameter record still has `Optional = false`, refuting the
claimed "true if and only if the declared type annotation is optional". -/
theorem claimC1_counterexample :
    ((analyzeParsedProgram Analyzer.new "s.cdc" "" [] ""
        [Declaration.transaction
          (some [⟨"x", ⟨false, CadType.optional (CadType.named "Int")⟩⟩])]).1 =
      Except.ok
        { FileName := "s.cdc", Type' := "transaction",
          Parameters := [{ Name := "x", TypeStr := "Int?", Optional := false }],
          ReturnType := "", Imports := [], Base64 := "", Tag := "" }) ∧
    TypeAnn.isOptionalType { IsResource := false, Ty := CadType.optional (CadType.named "Int") }
      = true := by
  exact ⟨rfl, rfl⟩

/-- Claim C1, amended: the Optional flag of every Parameter record
produced by a successful file analysis is always `false`, regardless of
the declared type annotation; parameter optionality is carried only
inside the `TypeStr` string (the syntactic-optional derivation exists
only for struct fields). -/
theorem claimC1 (parse : String → Except String (List Declaration)) (a : Analyzer)
    (fn dir content : String) (r : AnalysisResult) (a' : Analyzer)
    (h : AnalyzeFile parse a fn dir content = (Except.ok r, a')) :
    ∀ p ∈ r.Parameters, p.Optional = false := by
  obtain ⟨ds, hp, hr⟩ := AnalyzeFile_ok_elim parse a fn dir content r a' h
  rcases analyzeParsedProgram_cases _ _ _ _ _ _ _ _ hr with ⟨pl, _, hrec, _⟩ | ⟨pl, rt, hrec, _⟩
  · subst hrec
    exact mkParams_optional pl
  · subst hrec
    exact mkParams_optional pl

/-- Witness for the amended claim C1 at a concrete optional-typed
transaction parameter. -/
theorem claimC1_witness :
    ({ Name := "x", TypeStr := "Int?", Optional := false } : Parameter).Optional = false :=
  claimC1
    (fun _ => Except.ok [Declaration.transaction
      (some [⟨"x", ⟨false, CadType.optional (CadType.named "Int")⟩⟩])])
    Analyzer.new "s.cdc" "." "body"
    { FileName := "s.cdc", Type' := "transaction",
      Parameters := [{ Name := "x", TypeStr := "Int?", Optional := false }],
      ReturnType := "", Imports := [], Base64 := "", Tag := "" }
    { Transactions := [("s.cdc",
        { FileName := "s.cdc", Type' := "transaction",
          Parameters := [{ Name := "x", TypeStr := "Int?", Optional := false }],
          ReturnType := "", Imports := [], Base64 := "", Tag := "" })],
      Scripts := [], Structs := [], IncludeBase64 := false, AddressesPath := "" }
    rfl
    { Name := "x", TypeStr := "Int?", Optional := false }
    (List.mem_singleton.mpr rfl)

/-! ### Claim C10 -/

/-- Claim C10: every successful analysis result carries `Base64` equal
to the standard base64 encoding of the complete original file bytes
(imports included) exactly when the include-base64 option is enabled,
and the empty (omitted) string when it is disabled. -/
theorem claimC10 (parse : String → Except String (List Declaration)) (a : Analyzer)
    (fn dir content : String) (r : AnalysisResult) (a' : Analyzer)
    (h : AnalyzeFile parse a fn dir content = (Except.ok r, a')) :
    r.Base64 = (if a.IncludeBase64 then encodeBase64 (bytesOfString content) else "") := by
  obtain ⟨ds, hp, hr⟩ := AnalyzeFile_ok_elim parse a fn dir content r a' h
  rcases analyzeParsedProgram_cases _ _ _ _ _ _ _ _ hr with ⟨pl, _, hrec, _⟩ | ⟨pl, rt, hrec, _⟩
  · subst hrec
    rfl
  · subst hrec
    rfl

/-- Witness for claim C10: with the option enabled, a file whose import
header is stripped before parsing still gets the base64 of the full
original content. -/
theorem claimC10_witness :
    ({ FileName := "t.cdc", Type' := "transaction", Parameters := [], ReturnType := "",
       Imports := [{ Contract := "A", Address := "0x1" }],
       Base64 := encodeBase64 (bytesOfString "import A from 0x1\nok"),
       Tag := "" } : AnalysisResult).Base64 =
      (if (SetIncludeBase64 Analyzer.new true).IncludeBase64 then
        encodeBase64 (bytesOfString "import A from 0x1\nok") else "") :=
  claimC10 (fun _ => Except.ok [Declaration.transaction none])
    (SetIncludeBase64 Analyzer.new true) "t.cdc" "." "import A from 0x1\nok"
    { FileName := "t.cdc", Type' := "transaction", Parameters := [], ReturnType := "",
      Imports := [{ Contract := "A", Address := "0x1" }],
      Base64 := encodeBase64 (bytesOfString "import A from 0x1\nok"), Tag := "" }
    { Transactions := [("t.cdc",
        { FileName := "t.cdc", Type' := "transaction", Parameters := [], ReturnType := "",
          Imports := [{ Contract := "A", Address := "0x1" }],
          Base64 := encodeBase64 (bytesOfString "import A from 0x1\nok"), Tag := "" })],
      Scripts := [], Structs := [], IncludeBase64 := true, AddressesPath := "" }
    rfl

/-! ### Claim C8 -/

/-- Claim C8's "each file name is present in at most one of the
transaction and script collections" is false: the analyzer never
removes an entry from the other collection, so a name first analyzed as
a script and then (from another directory) as a transaction ends up in
both maps. -/
theorem claimC8_counterexample :
    ((mapLookup (AnalyzeDirectory
        (fun code => if code = "T" then Except.ok [Declaration.transaction none]
          else Except.ok [Declaration.function CadAccess.notSpecified "main" none none])
        Analyzer.new
        [{ fileName := "foo.cdc", dir := "a", content := "S" },
         { fileName := "foo.cdc", dir := "b", content := "T" }]).Transactions
      "foo.cdc").isSome = true) ∧
    ((mapLookup (AnalyzeDirectory
        (fun code => if code = "T" then Except.ok [Declaration.transaction none]
          else Except.ok [Declaration.function CadAccess.notSpecified "main" none none])
        Analyzer.new
        [{ fileName := "foo.cdc", dir := "a", content := "S" },
         { fileName := "foo.cdc", dir := "b", content := "T" }]).Scripts
      "foo.cdc").isSome = true) := by
  exact ⟨rfl, rfl⟩

/-- Claim C8, amended: each successful analysis stores its result in
exactly one of the two collections, keyed by file name, overwriting any
prior entry of that collection (last-write-wins, no merge) and leaving
the other collection untouched — hence a name analyzed once as a script
and once as a transaction remains present in both collections. -/
theorem claimC8 (parse : String → Except String (List Declaration)) (a : Analyzer)
    (fn dir content : String) (r : AnalysisResult) (a' : Analyzer)
    (h : AnalyzeFile parse a fn dir content = (Except.ok r, a')) :
    (r.Type' = "transaction" ∧ mapLookup a'.Transactions fn = some r ∧ a'.Scripts = a.Scripts) ∨
    (r.Type' = "script" ∧ mapLookup a'.Scripts fn = some r ∧ a'.Transactions = a.Transactions) := by
  obtain ⟨ds, hp, hr⟩ := AnalyzeFile_ok_elim parse a fn dir content r a' h
  rcases analyzeParsedProgram_cases _ _ _ _ _ _ _ _ hr with ⟨pl, _, hrec, ha⟩ | ⟨pl, rt, hrec, ha⟩
  · subst hrec
    subst ha
    exact Or.inl ⟨rfl, mapLookup_insert_self _ _ _, rfl⟩
  · subst hrec
    subst ha
    exact Or.inr ⟨rfl, mapLookup_insert_self _ _ _, rfl⟩

/-- Witness for the amended claim C8: re-analyzing the name `foo.cdc`
as a transaction over an analyzer that already holds a transaction
entry for that name overwrites the old entry (lookup returns the new
result). -/
theorem claimC8_witness :
    mapLookup ((⟨[("foo.cdc", ⟨"foo.cdc", "transaction", [], "", [], "", ""⟩)], [], [], false, ""⟩ :
        Analyzer)).Transactions "foo.cdc" =
      some ⟨"foo.cdc", "transaction", [], "", [], "", ""⟩ :=
  ((claimC8 (fun _ => Except.ok [Declaration.transaction none])
      ⟨[("foo.cdc", ⟨"foo.cdc", "old", [], "", [], "", "old"⟩)], [], [], false, ""⟩
      "foo.cdc" "." "x"
      ⟨"foo.cdc", "transaction", [], "", [], "", ""⟩
      ⟨[("foo.cdc", ⟨"foo.cdc", "transaction", [], "", [], "", ""⟩)], [], [], false, ""⟩
      rfl).resolve_right (by decide)).2.1

/-! ### Claim C2 -/

/-- Claim C2's "the catalog is left completely unchanged" is false for
the `NoEntryPointFound` case: the struct-extraction loop runs before
classification, so a file declaring a struct but no entry point fails
analysis yet still adds the struct to the catalog. -/
theorem claimC2_counterexample :
    ((analyzeParsedProgram Analyzer.new "s.cdc" "" [] ""
        [Declaration.composite CadAccess.accessAll CompositeKind.structureKind "Foo" []]).1 =
      Except.error "no transaction or script found in file") ∧
    (mapLookup (analyzeParsedProgram Analyzer.new "s.cdc" "" [] ""
        [Declaration.composite CadAccess.accessAll CompositeKind.structureKind "Foo" []]).2.Structs
      "Foo" =
      some { Name := "Foo", Fields := [], Access := "access(all)", FileName := "s.cdc" }) := by
  exact ⟨rfl, rfl⟩

/-- Claim C2, amended: a file whose body fails to parse leaves the
analyzer exactly unchanged; a file failing for any reason (including no
entry point found) leaves the transaction and script collections
unchanged, though struct declarations read before the failure have
already been added; and the directory walk always continues with the
remaining files. -/
theorem claimC2 (parse : String → Except String (List Declaration)) (a : Analyzer)
    (fn dir content : String) :
    (∀ e, parse (extractImports content).2 = Except.error e →
      AnalyzeFile parse a fn dir content = (Except.error ("failed to parse file: " ++ e), a)) ∧
    (∀ e a', AnalyzeFile parse a fn dir content = (Except.error e, a') →
      a'.Transactions = a.Transactions ∧ a'.Scripts = a.Scripts) ∧
    (∀ (files₁ files₂ : List FileInput),
      AnalyzeDirectory parse a (files₁ ++ files₂) =
        AnalyzeDirectory parse (AnalyzeDirectory parse a files₁) files₂) := by
  refine ⟨?_, ?_, ?_⟩
  · intro e hp
    unfold AnalyzeFile
    dsimp only
    rw [hp]
  · intro e a' h
    unfold AnalyzeFile at h
    dsimp only at h
    rcases hp : parse (extractImports content).2 with e0 | ds
    all_goals rw [hp] at h; dsimp only at h
    case error =>
      rw [Prod.mk.injEq] at h
      rw [← h.2]
      exact ⟨rfl, rfl⟩
    case ok =>
      have ha := analyzeParsedProgram_error_state _ _ _ _ _ _ _ _ h
      rw [ha]
      exact ⟨rfl, rfl⟩
  · intro files₁ files₂
    unfold AnalyzeDirectory
    exact List.foldl_append _ _ _ _

/-- Witness for the amended claim C2 at a file whose parse fails. -/
theorem claimC2_witness :
    AnalyzeFile (fun _ => Except.error "boom") Analyzer.new "f.cdc" "." "x" =
      (Except.error ("failed to parse file: " ++ "boom"), Analyzer.new) :=
  (claimC2 (fun _ => Except.error "boom") Analyzer.new "f.cdc" "." "x").1 "boom" rfl

/-! ### Claim C6: classification priority -/

theorem find?_isTransactionB (ds : List Declaration) :
    ds.find? isTransactionB = (findTransaction ds).map (fun pl => Declaration.transaction pl) := by
  induction ds with
  | nil => rfl
  | cons d rest ih =>
    cases d with
    | transaction pl => simp [List.find?, isTransactionB, findTransaction]
    | function access name pl rt => simpa [List.find?, isTransactionB, findTransaction] using ih
    | composite access kind name members =>
      simpa [List.find?, isTransactionB, findTransaction] using ih
    | otherDecl => simpa [List.find?, isTransactionB, findTransaction] using ih

theorem find?_isMainB (ds : List Declaration) :
    ds.find? isMainB =
      (findMainFn ds).map (fun x => Declaration.function x.1 "main" x.2.1 x.2.2) := by
  induction ds with
  | nil => rfl
  | cons d rest ih =>
    cases d with
    | transaction pl => simpa [List.find?, isMainB, findMainFn] using ih
    | function access name pl rt =>
      by_cases hn : name = "main"
      · subst hn
        simp [List.find?, isMainB, findMainFn]
      · simpa [List.find?, isMainB, findMainFn, hn] using ih
    | composite access kind name members => simpa [List.find?, isMainB, findMainFn] using ih
    | otherDecl => simpa [List.find?, isMainB, findMainFn] using ih

theorem find?_isAccessFnB (ds : List Declaration) :
    ds.find? isAccessFnB =
      (findAccessFn ds).map (fun x => Declaration.function x.1 x.2.1 x.2.2.1 x.2.2.2) := by
  induction ds with
  | nil => rfl
  | cons d rest ih =>
    cases d with
    | transaction pl => simpa [List.find?, isAccessFnB, findAccessFn] using ih
    | function access name pl rt =>
      by_cases ha : access = CadAccess.notSpecified
      · subst ha
        simpa [List.find?, isAccessFnB, findAccessFn] using ih
      · simp [List.find?, isAccessFnB, findAccessFn, ha]
    | composite access kind name members => simpa [List.find?, isAccessFnB, findAccessFn] using ih
    | otherDecl => simpa [List.find?, isAccessFnB, findAccessFn] using ih

/-- Claim C6: classification follows strict priority, first match wins:
the first transaction declaration (if any) makes the file a
transaction, even when a `main` function is also present; otherwise the
first function named exactly `main` makes it a script; otherwise the
first function with a non-default access modifier makes it a script;
otherwise analysis fails.  `List.find?` expresses "the first
declaration satisfying the test". -/
theorem claimC6 (a : Analyzer) (fn tag : String) (imports : List Import) (b64 : String)
    (ds : List Declaration) :
    (∀ pl, ds.find? isTransactionB = some (Declaration.transaction pl) →
      (analyzeParsedProgram a fn tag imports b64 ds).1 =
        Except.ok
          { FileName := fn, Type' := "transaction", Parameters := mkParams pl,
            ReturnType := "", Imports := imports, Base64 := b64, Tag := tag }) ∧
    (ds.find? isTransactionB = none →
      ∀ acc pl rt, ds.find? isMainB = some (Declaration.function acc "main" pl rt) →
      (analyzeParsedProgram a fn tag imports b64 ds).1 =
        Except.ok
          { FileName := fn, Type' := "script", Parameters := mkParams pl,
            ReturnType := renderRet rt, Imports := imports, Base64 := b64, Tag := tag }) ∧
    (ds.find? isTransactionB = none → ds.find? isMainB = none →
      ∀ acc nm pl rt, ds.find? isAccessFnB = some (Declaration.function acc nm pl rt) →
      (analyzeParsedProgram a fn tag imports b64 ds).1 =
        Except.ok
          { FileName := fn, Type' := "script", Parameters := mkParams pl,
            ReturnType := renderRet rt, Imports := imports, Base64 := b64, Tag := tag }) ∧
    (ds.find? isTransactionB = none → ds.find? isMainB = none →
      ds.find? isAccessFnB = none →
      (analyzeParsedProgram a fn tag imports b64 ds).1 =
        Except.error "no transaction or script found in file") := by
  refine ⟨?_, ?_, ?_, ?_⟩
  · intro pl h
    rw [find?_isTransactionB] at h
    rcases Option.map_eq_some'.mp h with ⟨pl', hft, heq⟩
    injection heq with heq'
    subst heq'
    simp [analyzeParsedProgram, hft]
  · intro ht acc pl rt h
    rw [find?_isTransactionB] at ht
    rw [find?_isMainB] at h
    rcases Option.map_eq_some'.mp h with ⟨x, hfm, heq⟩
    injection heq with e1 e2 e3 e4
    subst e3
    subst e4
    have hftn : findTransaction ds = none := Option.map_eq_none'.mp ht
    simp [analyzeParsedProgram, hftn, hfm]
  · intro ht hm acc nm pl rt h
    rw [find?_isTransactionB] at ht
    rw [find?_isMainB] at hm
    rw [find?_isAccessFnB] at h
    rcases Option.map_eq_some'.mp h with ⟨x, hfa, heq⟩
    injection heq with e1 e2 e3 e4
    subst e3
    subst e4
    have hftn : findTransaction ds = none := Option.map_eq_none'.mp ht
    have hfmn : findMainFn ds = none := Option.map_eq_none'.mp hm
    simp [analyzeParsedProgram, hftn, hfmn, hfa]
  · intro ht hm hacc
    have hftn : findTransaction ds = none := Option.map_eq_none'.mp (by rw [← find?_isTransactionB]; exact ht)
    have hfmn : findMainFn ds = none := Option.map_eq_none'.mp (by rw [← find?_isMainB]; exact hm)
    have hfan : findAccessFn ds = none := Option.map_eq_none'.mp (by rw [← find?_isAccessFnB]; exact hacc)
    simp [analyzeParsedProgram, hftn, hfmn, hfan]

/-- Witness for claim C6: a file whose `main` function precedes a
transaction declaration is still classified as a transaction. -/
theorem claimC6_witness :
    (analyzeParsedProgram Analyzer.new "t.cdc" "" [] ""
      [Declaration.function CadAccess.notSpecified "main" none none,
       Declaration.transaction none]).1 =
      Except.ok
        { FileName := "t.cdc", Type' := "transaction", Parameters := mkParams none,
          ReturnType := "", Imports := [], Base64 := "", Tag := "" } :=
  (claimC6 Analyzer.new "t.cdc" "" [] ""
    [Declaration.function CadAccess.notSpecified "main" none none,
     Declaration.transaction none]).1 none rfl

/-! ### Claim C3: catalog-read flattening -/

theorem flattenFold_preserves :
    ∀ (l acc : List (String × Struct)) (k : String),
      (∀ kv ∈ l, flattenStructName kv.1 ≠ k) →
      mapLookup (l.foldl (fun acc kv =>
          mapInsert acc (flattenStructName kv.1)
            { kv.2 with Name := flattenStructName kv.2.Name }) acc) k =
        mapLookup acc k := by
  intro l
  induction l with
  | nil => intro acc k _; rfl
  | cons kv rest ih =>
    intro acc k hne
    show mapLookup (rest.foldl _ (mapInsert acc (flattenStructName kv.1) _)) k = _
    rw [ih _ k (fun kv' h' => hne kv' (List.mem_cons_of_mem kv h'))]
    exact mapLookup_insert_ne acc _ k _ (hne kv (List.mem_cons_self kv rest))

theorem flattenFold_lookup :
    ∀ (l acc : List (String × Struct)) (k : String) (s : Struct),
      (l.map (fun kv => flattenStructName kv.1)).Nodup →
      (∀ kv ∈ l, mapLookup acc (flattenStructName kv.1) = none) →
      mapLookup l k = some s →
      mapLookup (l.foldl (fun acc kv =>
          mapInsert acc (flattenStructName kv.1)
            { kv.2 with Name := flattenStructName kv.2.Name }) acc) (flattenStructName k) =
        some { s with Name := flattenStructName s.Name } := by
  intro l
  induction l with
  | nil => intro acc k s _ _ hl; exact Option.noConfusion hl
  | cons kv rest ih =>
    intro acc k s hnodup hacc hl
    obtain ⟨k0, s0⟩ := kv
    rw [List.map_cons, List.nodup_cons] at hnodup
    obtain ⟨hk0notin, hnodup'⟩ := hnodup
    by_cases he : k0 = k
    · subst he
      have hs : s0 = s := by
        unfold mapLookup at hl
        rw [if_pos rfl] at hl
        injection hl
      subst hs
      show mapLookup (rest.foldl _ (mapInsert acc (flattenStructName k0) _))
        (flattenStructName k0) = _
      rw [flattenFold_preserves rest _ (flattenStructName k0) ?hne]
      case hne =>
        intro kv' hm heq
        exact hk0notin (heq ▸ List.mem_map_of_mem (fun kv => flattenStructName kv.1) hm)
      exact mapLookup_insert_self acc (flattenStructName k0) _
    · have hl' : mapLookup rest k = some s := by
        unfold mapLookup at hl
        rw [if_neg he] at hl
        exact hl
      show mapLookup (rest.foldl _ (mapInsert acc (flattenStructName k0) _))
        (flattenStructName k) = _
      apply ih _ k s hnodup' ?_ hl'
      intro kv' hm
      rw [mapLookup_insert_ne]
      · exact hacc kv' (List.mem_cons_of_mem _ hm)
      · intro heq
        exact hk0notin (heq ▸ List.mem_map_of_mem (fun kv => flattenStructName kv.1) hm)

/-- Claim C3's "every dotted type reference in the returned report" is
false: `GetReport` flattens only struct-map keys and struct `Name`
fields; a field's dotted `TypeStr` survives unflattened in the read
view (and flattening it would have produced "CD"). -/
theorem claimC3_counterexample :
    (mapLookup (GetReport
        ⟨[], [], [("A.B", ⟨"A.B", [⟨"f", "C.D", false, ""⟩], "", ""⟩)], false, ""⟩ none).Structs
      "AB" =
      some ⟨"AB", [⟨"f", "C.D", false, ""⟩], "", ""⟩) ∧
    containsStr "C.D" "." = true ∧ flattenStructName "C.D" = "CD" ∧ "C.D" ≠ "CD" := by
  refine ⟨rfl, rfl, rfl, ?_⟩
  decide

/-- Claim C3, amended: reading the catalog rewrites every dotted
structure key and the structure's own Name field by deleting the dots
(provided the flattened keys do not collide), leaves the structure's
field list — including dotted field type strings — otherwise untouched,
and returns the transaction and script maps unchanged; being a pure
function of the analyzer, it never mutates the stored maps. -/
theorem claimC3 (a : Analyzer) (addrs : Option AddressBook) :
    (GetReport a addrs).Transactions = a.Transactions ∧
    (GetReport a addrs).Scripts = a.Scripts ∧
    ((a.Structs.map (fun kv => flattenStructName kv.1)).Nodup →
      ∀ k s, mapLookup a.Structs k = some s →
        mapLookup (GetReport a addrs).Structs (flattenStructName k) =
          some { s with Name := flattenStructName s.Name }) :=
  ⟨rfl, rfl, fun hnd k s hl => flattenFold_lookup a.Structs [] k s hnd (fun _ _ => rfl) hl⟩

/-- Witness for the amended claim C3 at the spec's own example: a
struct stored under `FlowIDTableStaking.DelegatorInfo` appears in the
read view under `FlowIDTableStakingDelegatorInfo` with its Name equally
flattened. -/
theorem claimC3_witness :
    mapLookup (GetReport
        ⟨[], [], [("FlowIDTableStaking.DelegatorInfo",
          ⟨"FlowIDTableStaking.DelegatorInfo", [⟨"id", "UInt32", false, ""⟩], "", ""⟩)],
          false, ""⟩ none).Structs
      (flattenStructName "FlowIDTableStaking.DelegatorInfo") =
      some ⟨"FlowIDTableStakingDelegatorInfo", [⟨"id", "UInt32", false, ""⟩], "", ""⟩ := by
  have h := (claimC3
    ⟨[], [], [("FlowIDTableStaking.DelegatorInfo",
      ⟨"FlowIDTableStaking.DelegatorInfo", [⟨"id", "UInt32", false, ""⟩], "", ""⟩)],
      false, ""⟩ none).2.2 (by decide) "FlowIDTableStaking.DelegatorInfo"
    ⟨"FlowIDTableStaking.DelegatorInfo", [⟨"id", "UInt32", false, ""⟩], "", ""⟩ rfl
  simpa using h

/-! ### Claim C7: import splitter -/

theorem extractImportsAux_spec (lines : List String) :
    extractImportsAux lines =
      (lines.filterMap parseImportLineSpec,
       lines.filter (fun l => !(startsWithStr (trimSpace l) "import "))) := by
  induction lines with
  | nil => rfl
  | cons line rest ih =>
    unfold extractImportsAux
    rw [ih]
    rw [List.filterMap_cons, List.filter_cons]
    unfold parseImportLineSpec
    by_cases hp : startsWithStr (trimSpace line) "import " = true
    · simp only [hp, if_true, Bool.not_true, if_false]
      split
      · rfl
      · rfl
    · simp only [hp, if_false, Bool.not_false, if_true]
      rfl

/-- Claim C7's "all other lines keep their original line positions" is
false: removed import lines shift the following lines up.  In
`"import A from 0x1\nbody"` the line `body` sits at line index 1, but
in the returned body it sits at index 0 and index 1 no longer exists. -/
theorem claimC7_counterexample :
    (goSplitChar '\n' (extractImports "import A from 0x1\nbody").2 = ["body"]) ∧
    ((goSplitChar '\n' "import A from 0x1\nbody").getD 1 "" = "body") ∧
    ((goSplitChar '\n' (extractImports "import A from 0x1\nbody").2).getD 1 "" ≠ "body") := by
  refine ⟨rfl, rfl, ?_⟩
  decide

/-- Claim C7, amended: the import splitter produces one Import record
per line whose trimmed text begins with the import keyword and has the
shape `import <Name> from <Address>` (name and address positional,
order preserved, duplicates allowed, malformed import lines silently
dropped), and the remaining body consists of exactly the non-import
lines — blank lines included — in their original relative order; import
lines are removed outright, so following lines shift up rather than
keeping their absolute line numbers. -/
theorem claimC7 (content : String) :
    (extractImports content).1 =
      (goSplitChar '\n' content).filterMap parseImportLineSpec ∧
    (extractImports content).2 =
      goJoin "\n" ((goSplitChar '\n' content).filter
        (fun l => !(startsWithStr (trimSpace l) "import "))) := by
  unfold extractImports
  rw [extractImportsAux_spec]
  exact ⟨rfl, rfl⟩

/-! ### Claim C9: tag derivation -/

theorem goJoin_empty_cons (x : String) (xs : List String) :
    goJoin "" (x :: xs) = x ++ goJoin "" xs := by
  cases xs with
  | nil => exact (String.append_empty x).symm
  | cons y ys =>
    show x ++ "" ++ goJoin "" (y :: ys) = x ++ goJoin "" (y :: ys)
    rw [String.append_empty]

theorem goTitleAux_ne_nil (prev c : Char) (cs : List Char) :
    goTitleAux prev (c :: cs) ≠ [] := by
  simp [goTitleAux]

theorem goTitle_empty_iff (s : String) : goTitle s = "" ↔ s = "" := by
  constructor
  · intro h
    apply String.ext
    have h' : goTitleAux ' ' s.data = [] := by
      have : (goTitle s).data = ("" : String).data := by rw [h]
      exact this
    cases hd : s.data with
    | nil => rfl
    | cons c cs =>
      rw [hd] at h'
      exact absurd h' (goTitleAux_ne_nil ' ' c cs)
  · intro h
    rw [h]
    rfl

theorem enumFrom_map_shift {β : Type} (F : Nat × String → β) (G : String → β)
    (h : ∀ i x, F (i + 1, x) = G x) :
    ∀ (k : Nat) (l : List String), (List.enumFrom (k + 1) l).map F = l.map G := by
  intro k l
  induction l generalizing k with
  | nil => rfl
  | cons x xs ih =>
    show F (k + 1, x) :: (List.enumFrom (k + 2) xs).map F = G x :: xs.map G
    rw [h k x, ih (k + 1)]

theorem enum_map_first {β : Type} (F : Nat × String → β) (f g : String → β)
    (h0 : ∀ x, F (0, x) = f x) (hpos : ∀ i x, F (i + 1, x) = g x) (l : List String) :
    l.enum.map F = (match l with
      | [] => []
      | w :: rest => f w :: rest.map g) := by
  cases l with
  | nil => rfl
  | cons w rest =>
    show F (0, w) :: (List.enumFrom 1 rest).map F = f w :: rest.map g
    rw [h0 w, enumFrom_map_shift F g hpos 0 rest]

theorem enum_map_const {β : Type} (F : Nat × String → β) (g : String → β)
    (h : ∀ i x, F (i, x) = g x) (l : List String) : l.enum.map F = l.map g := by
  rw [enum_map_first F g g (fun x => h 0 x) (fun i x => h (i + 1) x) l]
  cases l with
  | nil => rfl
  | cons w rest => rfl

theorem tagJoin_eq (segs : List String) :
    goJoin "" (segs.enum.map (fun ip =>
      goJoin "" ((goFieldsFunc isWordSep ip.2).enum.map (fun js =>
        if ip.1 = 0 ∧ js.1 = 0 then toLowerStr js.2 else goTitle (toLowerStr js.2))))) =
    (match segs with
     | [] => ""
     | s :: rest =>
       goJoin "" (tagFirstSegWords goTitle (goFieldsFunc isWordSep s)) ++
       goJoin "" (rest.map (fun p =>
         goJoin "" ((goFieldsFunc isWordSep p).map (fun x => goTitle (toLowerStr x)))))) := by
  cases segs with
  | nil => rfl
  | cons s rest =>
    rw [show (s :: rest).enum = (0, s) :: List.enumFrom 1 rest from rfl]
    rw [List.map_cons, goJoin_empty_cons]
    dsimp only
    congr 1
    · congr 1
      rw [enum_map_first _ toLowerStr (fun x => goTitle (toLowerStr x))
        (fun x => by simp) (fun i x => by simp) (goFieldsFunc isWordSep s)]
      cases goFieldsFunc isWordSep s with
      | nil => rfl
      | cons w ws => rfl
    · rw [enumFrom_map_shift _
        (fun p => goJoin "" ((goFieldsFunc isWordSep p).map (fun x => goTitle (toLowerStr x))))
        ?hp 0 rest]
      case hp =>
        intro i p
        dsimp only
        congr 1
        exact enum_map_const _ _ (fun j x => by simp) (goFieldsFunc isWordSep p)

/-- Claim C9's final title-casing step is not "only the very first
character": the code applies Go `strings.Title`, which capitalizes the
first letter of every separator-delimited word.  A directory named
`a.b` yields tag `A.B`, while the claim's algorithm yields `A.b`. -/
theorem claimC9_counterexample :
    deriveTag "a.b" = some "A.B" ∧ deriveTagClaimSpec "a.b" = some "A.b" ∧
    deriveTag "a.b" ≠ deriveTagClaimSpec "a.b" := by
  refine ⟨rfl, rfl, ?_⟩
  decide

/-- Claim C9, amended: tag derivation is the claimed pure function of
the directory path — split into segments dropping empty and
current-directory parts, split each segment on underscore/hyphen,
lowercase every word, title-case every word except the very first word
of the very first segment, concatenate without separators, and
title-case the result — except that title-casing a word or the final
result capitalizes the first letter of every separator-delimited run
(Go `strings.Title`), not only the very first character; a root-level
file yields an absent tag. -/
theorem claimC9 (dir : String) : deriveTag dir = deriveTagAmendedSpec dir := by
  unfold deriveTag deriveTagRaw deriveTagAmendedSpec deriveTagSpecWith
  by_cases hd : dir = "."
  · subst hd
    rfl
  · rw [if_neg hd]
    dsimp only
    rw [tagJoin_eq ((goSplitChar '/' dir).filter (fun p => p ≠ "" && p ≠ "."))]
    cases hseg : (goSplitChar '/' dir).filter (fun p => p ≠ "" && p ≠ ".") with
    | nil => rfl
    | cons s rest =>
      by_cases hT : (goJoin "" (tagFirstSegWords goTitle (goFieldsFunc isWordSep s)) ++
          goJoin "" (rest.map (fun p =>
            goJoin "" ((goFieldsFunc isWordSep p).map (fun x => goTitle (toLowerStr x)))))) = ""
      · simp [hT]
      · simp [hT, goTitle_empty_iff]
end analyzer
